import Mathlib

/-!
Verification of the token lifecycle manager of the spotify-broadcast-backend
repository.  The definitions below are a shallow embedding of the helper
functions of src/main.py (save_token, refresh_access_token, get_valid_token,
get_spotify_client) together with the token writes of the seeding script
src/redis_set_up.py.  Redis string values are modelled as lists of characters,
Fernet encryption as a symbolic tagging scheme, and the Redis TTL as an
absolute deadline checked against an explicit clock.
-/

namespace SBB

/-- Redis string values, modelled as lists of characters. -/
abbrev Str := List Char

/-- The tag that marks a Fernet ciphertext in the symbolic model of
encryption.  A string is a ciphertext exactly when it starts with this tag. -/
def cipherTag : Str := ['e', 'n', 'c', ':']

/-- Symbolic model of fernet.encrypt: tag the plaintext. -/
def encrypt (s : Str) : Str := cipherTag ++ s

/-- Symbolic model of fernet.decrypt: strip the tag; any value that is not a
ciphertext makes decryption fail (fernet.decrypt raises InvalidToken). -/
def decrypt (v : Str) : Option Str :=
  if v.take 4 = cipherTag then some (v.drop 4) else none

theorem decrypt_encrypt (s : Str) : decrypt (encrypt s) = some s := by
  have h4 : cipherTag.length = 4 := rfl
  unfold decrypt encrypt
  rw [show (4 : Nat) = cipherTag.length from rfl, List.take_left, List.drop_left]
  simp

/-- One stored Redis value together with its expiry deadline (an absolute
instant; none means no TTL), as produced by SET key value EX ttl. -/
structure Entry where
  value : Str
  deadline : Option Nat
deriving DecidableEq, Repr

/-- The two token keys of the Redis store: spotify_access_token and
spotify_refresh_token. -/
structure Store where
  access : Option Entry
  refresh : Option Entry
deriving DecidableEq, Repr

/-- r.get("spotify_access_token") at instant now: the store itself returns
absent once the TTL deadline has been reached (automatic expiry). -/
def Store.getAccess (st : Store) (now : Nat) : Option Str :=
  match st.access with
  | none => none
  | some e =>
    match e.deadline with
    | none => some e.value
    | some d => if now < d then some e.value else none

/-- r.get("spotify_refresh_token") at instant now. -/
def Store.getRefresh (st : Store) (now : Nat) : Option Str :=
  match st.refresh with
  | none => none
  | some e =>
    match e.deadline with
    | none => some e.value
    | some d => if now < d then some e.value else none

/-- The parsed JSON of an upstream token-endpoint response together with the
HTTP status code and the raw body (response.text).  A JSON field that the
upstream omitted is none. -/
structure UpstreamResponse where
  status : Nat
  text : Str
  access_token : Option Str
  refresh_token : Option Str
  expires_in : Option Nat
deriving DecidableEq, Repr

/-- Python truthiness of an optional string field: None and the empty string
are both falsy. -/
def truthy : Option Str → Option Str
  | some s => if s = [] then none else some s
  | none => none

/-- src/main.py save_token: encrypt and SET the access token with
EX = expires_in (defaulting to 3600 when the response omits it) and the
refresh token with no TTL; a falsy field is not written. -/
def save_token (token_info : UpstreamResponse) (st : Store) (now : Nat) : Store :=
  let expires_in := token_info.expires_in.getD 3600
  let st1 :=
    match truthy token_info.access_token with
    | some a => { st with access := some ⟨encrypt a, some (now + expires_in)⟩ }
    | none => st
  match truthy token_info.refresh_token with
  | some rt => { st1 with refresh := some ⟨encrypt rt, none⟩ }
  | none => st1

/-- The error outcomes of the token manager: the RuntimeError causes raised in
src/main.py, decryption failure on a non-ciphertext value, and the KeyError of
token_info["access_token"] on a response lacking that field. -/
inductive Err
  | noCredentials
  | upstreamRefreshFailed (body : Str)
  | decryptError
  | keyError
deriving DecidableEq, Repr

/-- Instrumentation of a sequential run: how many POSTs to the upstream token
endpoint were issued and how many times the refresh lock was acquired. -/
structure Stats where
  upstream : Nat
  locks : Nat
deriving DecidableEq, Repr

/-- Outcome of a sequential run of a manager function: the returned value or
raised error, the final store, and the instrumentation counters. -/
structure Run where
  result : Except Err Str
  store : Store
  stats : Stats

/-- The body of the with r.lock block of src/main.py refresh_access_token,
executed once the lock is held: re-check the access token (double-checked
pattern); if still absent, POST the refresh request (modelled by the oracle),
fail on a non-200 status, otherwise save the response and return
token_info["access_token"]. -/
def refreshLockBody (oracle : Str → UpstreamResponse) (refresh_token : Str)
    (st : Store) (now : Nat) : Run :=
  match st.getAccess now with
  | some c =>
    match decrypt c with
    | some a => ⟨Except.ok a, st, ⟨0, 0⟩⟩
    | none => ⟨Except.error Err.decryptError, st, ⟨0, 0⟩⟩
  | none =>
    let response := oracle refresh_token
    if response.status ≠ 200 then
      ⟨Except.error (Err.upstreamRefreshFailed response.text), st, ⟨1, 0⟩⟩
    else
      let st2 := save_token response st now
      match response.access_token with
      | some a => ⟨Except.ok a, st2, ⟨1, 0⟩⟩
      | none => ⟨Except.error Err.keyError, st2, ⟨1, 0⟩⟩

/-- src/main.py refresh_access_token: read and decrypt the stored refresh
token, failing when it is absent, then acquire the named refresh lock and run
the double-checked body. -/
def refresh_access_token (oracle : Str → UpstreamResponse) (st : Store)
    (now : Nat) : Run :=
  match st.getRefresh now with
  | none => ⟨Except.error Err.noCredentials, st, ⟨0, 0⟩⟩
  | some c =>
    match decrypt c with
    | none => ⟨Except.error Err.decryptError, st, ⟨0, 0⟩⟩
    | some refresh_token =>
      let r := refreshLockBody oracle refresh_token st now
      ⟨r.result, r.store, ⟨r.stats.upstream, r.stats.locks + 1⟩⟩

/-- src/main.py get_valid_token: return the decrypted cached access token when
present (fast path), otherwise refresh. -/
def get_valid_token (oracle : Str → UpstreamResponse) (st : Store)
    (now : Nat) : Run :=
  match st.getAccess now with
  | some c =>
    match decrypt c with
    | some a => ⟨Except.ok a, st, ⟨0, 0⟩⟩
    | none => ⟨Except.error Err.decryptError, st, ⟨0, 0⟩⟩
  | none => refresh_access_token oracle st now

/-- src/main.py get_spotify_client: some t stands for Spotify(auth=t); Python
returns None when the fetched token is falsy, and propagates raised errors. -/
def get_spotify_client (oracle : Str → UpstreamResponse) (st : Store)
    (now : Nat) : Except Err (Option Str) × Store × Stats :=
  let r := get_valid_token oracle st now
  match r.result with
  | Except.ok t => (Except.ok (if t = [] then none else some t), r.store, r.stats)
  | Except.error e => (Except.error e, r.store, r.stats)

/-- src/redis_set_up.py lines 36-37: write the freshly exchanged tokens to the
same two Redis keys, with no TTL and, in particular, no encryption. -/
def redis_set_up_save (access_token refresh_token : Str) (st : Store) : Store :=
  { st with
    access := some ⟨access_token, none⟩,
    refresh := some ⟨refresh_token, none⟩ }

/-- Inversion of a successful access read: the store holds an entry whose
value is the returned ciphertext. -/
theorem getAccess_eq_some {st : Store} {now : Nat} {c : Str}
    (h : st.getAccess now = some c) : ∃ e, st.access = some e ∧ e.value = c := by
  unfold Store.getAccess at h
  split at h
  · cases h
  · next e heq =>
    split at h
    · exact ⟨e, heq, Option.some.inj h⟩
    · split at h
      · exact ⟨e, heq, Option.some.inj h⟩
      · cases h

/-- A store whose refresh slot is untouched reads back the same refresh
token at every instant. -/
theorem getRefresh_congr {st st2 : Store} (h : st2.refresh = st.refresh)
    (t : Nat) : st2.getRefresh t = st.getRefresh t := by
  unfold Store.getRefresh
  rw [h]

/-- C3: when the access token is present (unexpired) in the store,
get_valid_token returns its plaintext immediately, leaves the store unchanged,
acquires no lock and issues no upstream call. -/
theorem c3_fast_path_no_lock_no_upstream
    (oracle : Str → UpstreamResponse) (st : Store) (now : Nat) (c a : Str)
    (hc : st.getAccess now = some c) (ha : decrypt c = some a) :
    get_valid_token oracle st now = ⟨Except.ok a, st, ⟨0, 0⟩⟩ := by
  unfold get_valid_token
  rw [hc]
  simp only [ha]

/-- Witness for C3: a concrete store holding an encrypted access token. -/
theorem c3_witness :
    Store.getAccess ⟨some ⟨encrypt ['A'], none⟩, some ⟨encrypt ['R'], none⟩⟩ 0
        = some (encrypt ['A'])
    ∧ decrypt (encrypt ['A']) = some ['A']
    ∧ get_valid_token (fun _ => ⟨200, [], none, none, none⟩)
        ⟨some ⟨encrypt ['A'], none⟩, some ⟨encrypt ['R'], none⟩⟩ 0
      = ⟨Except.ok ['A'],
         ⟨some ⟨encrypt ['A'], none⟩, some ⟨encrypt ['R'], none⟩⟩, ⟨0, 0⟩⟩ :=
  ⟨rfl, by decide,
   c3_fast_path_no_lock_no_upstream _ _ _ _ _ rfl (by decide)⟩

/-- C2: if an access token is present in the store at the moment the refresh
lock has been acquired, the lock body returns that stored, decrypted access
token immediately, leaves the store unchanged and issues no upstream call. -/
theorem c2_locked_recheck_returns_cached
    (oracle : Str → UpstreamResponse) (rt : Str) (st : Store) (now : Nat)
    (c a : Str) (hc : st.getAccess now = some c) (ha : decrypt c = some a) :
    refreshLockBody oracle rt st now = ⟨Except.ok a, st, ⟨0, 0⟩⟩ := by
  unfold refreshLockBody
  rw [hc]
  simp only [ha]

/-- Witness for C2 at a concrete store and oracle. -/
theorem c2_witness :
    Store.getAccess ⟨some ⟨encrypt ['A'], none⟩, some ⟨encrypt ['R'], none⟩⟩ 0
        = some (encrypt ['A'])
    ∧ decrypt (encrypt ['A']) = some ['A']
    ∧ refreshLockBody (fun _ => ⟨200, [], none, none, none⟩) ['R']
        ⟨some ⟨encrypt ['A'], none⟩, some ⟨encrypt ['R'], none⟩⟩ 0
      = ⟨Except.ok ['A'],
         ⟨some ⟨encrypt ['A'], none⟩, some ⟨encrypt ['R'], none⟩⟩, ⟨0, 0⟩⟩ :=
  ⟨rfl, by decide,
   c2_locked_recheck_returns_cached _ _ _ _ _ _ rfl (by decide)⟩

/-- C4: with no refresh token stored (and the refresh path taken because the
access token is also absent), get_valid_token fails with NoCredentials,
returns no token, leaves the store unchanged and issues no upstream call. -/
theorem c4_no_credentials
    (oracle : Str → UpstreamResponse) (st : Store) (now : Nat)
    (hr : st.getRefresh now = none) (hac : st.getAccess now = none) :
    get_valid_token oracle st now = ⟨Except.error Err.noCredentials, st, ⟨0, 0⟩⟩ := by
  unfold get_valid_token refresh_access_token
  rw [hac, hr]

/-- Witness for C4: the empty store. -/
theorem c4_witness :
    Store.getRefresh ⟨none, none⟩ 0 = none
    ∧ Store.getAccess ⟨none, none⟩ 0 = none
    ∧ get_valid_token (fun _ => ⟨200, [], none, none, none⟩) ⟨none, none⟩ 0
      = ⟨Except.error Err.noCredentials, ⟨none, none⟩, ⟨0, 0⟩⟩ :=
  ⟨rfl, rfl, c4_no_credentials _ _ _ rfl rfl⟩

/-- C5: when the upstream responds with a non-200 status, refresh_access_token
fails with UpstreamRefreshFailed carrying the upstream body, issues exactly one
upstream call (no retry) and leaves the store — in particular the stored
refresh token — unchanged. -/
theorem c5_upstream_failure_no_retry_store_unchanged
    (oracle : Str → UpstreamResponse) (st : Store) (now : Nat) (c rt : Str)
    (hr : st.getRefresh now = some c) (hd : decrypt c = some rt)
    (hac : st.getAccess now = none) (hs : (oracle rt).status ≠ 200) :
    refresh_access_token oracle st now
      = ⟨Except.error (Err.upstreamRefreshFailed (oracle rt).text), st, ⟨1, 1⟩⟩ := by
  unfold refresh_access_token refreshLockBody
  rw [hr]
  simp only [hd, hac, if_pos hs]

/-- Witness for C5: a store holding only a refresh token and an upstream that
answers 503. -/
theorem c5_witness :
    Store.getRefresh ⟨none, some ⟨encrypt ['R'], none⟩⟩ 0 = some (encrypt ['R'])
    ∧ decrypt (encrypt ['R']) = some ['R']
    ∧ Store.getAccess ⟨none, some ⟨encrypt ['R'], none⟩⟩ 0 = none
    ∧ (503 : Nat) ≠ 200
    ∧ refresh_access_token (fun _ => ⟨503, ['b'], none, none, none⟩)
        ⟨none, some ⟨encrypt ['R'], none⟩⟩ 0
      = ⟨Except.error (Err.upstreamRefreshFailed ['b']),
         ⟨none, some ⟨encrypt ['R'], none⟩⟩, ⟨1, 1⟩⟩ :=
  ⟨rfl, by decide, rfl, by decide,
   c5_upstream_failure_no_retry_store_unchanged
     (fun _ => ⟨503, ['b'], none, none, none⟩)
     ⟨none, some ⟨encrypt ['R'], none⟩⟩ 0 (encrypt ['R']) ['R']
     rfl (by decide) rfl (by decide)⟩

/-- Effect of save_token on the refresh slot: overwritten with the encrypted
response token when that field is truthy, untouched otherwise. -/
theorem save_token_refresh (resp : UpstreamResponse) (st : Store) (now : Nat) :
    (save_token resp st now).refresh
      = match truthy resp.refresh_token with
        | some rt => some ⟨encrypt rt, none⟩
        | none => st.refresh := by
  unfold save_token
  rcases h1 : truthy resp.refresh_token with _ | rt <;>
    rcases h2 : truthy resp.access_token with _ | a <;>
      simp [h1, h2]

/-- Effect of save_token on the access slot: overwritten with the encrypted
response token and the deadline now + expires_in (default 3600) when that
field is truthy, untouched otherwise. -/
theorem save_token_access (resp : UpstreamResponse) (st : Store) (now : Nat) :
    (save_token resp st now).access
      = match truthy resp.access_token with
        | some a => some ⟨encrypt a, some (now + resp.expires_in.getD 3600)⟩
        | none => st.access := by
  unfold save_token
  rcases h1 : truthy resp.refresh_token with _ | rt <;>
    rcases h2 : truthy resp.access_token with _ | a <;>
      simp [h1, h2]

/-- C6: on a successful refresh response whose refresh_token field, when
present, is a non-empty token, save_token persists a new (encrypted) refresh
token exactly when the response includes one; when the response omits it, the
refresh slot is unchanged and the old token is still retrievable. -/
theorem c6_refresh_persisted_iff_included (resp : UpstreamResponse) (st : Store)
    (now t : Nat) (h : resp.refresh_token ≠ some []) :
    ((save_token resp st now).refresh
        = match resp.refresh_token with
          | some rt => some ⟨encrypt rt, none⟩
          | none => st.refresh)
    ∧ (resp.refresh_token = none →
        (save_token resp st now).getRefresh t = st.getRefresh t) := by
  have hr := save_token_refresh resp st now
  constructor
  · rw [hr]
    cases hrt : resp.refresh_token with
    | none => simp [truthy]
    | some rt =>
      have hne : rt ≠ [] := fun he => h (by rw [hrt, he])
      simp [truthy, hne]
  · intro hnone
    refine getRefresh_congr ?_ t
    rw [hr, hnone]
    simp [truthy]

/-- Witness for C6: a response that omits refresh_token leaves the stored
refresh token in place. -/
theorem c6_witness :
    ((⟨200, [], some ['A'], none, some 10⟩ : UpstreamResponse).refresh_token
        ≠ some [])
    ∧ ((save_token ⟨200, [], some ['A'], none, some 10⟩
          ⟨none, some ⟨encrypt ['R'], none⟩⟩ 0).refresh
        = match (⟨200, [], some ['A'], none, some 10⟩ :
              UpstreamResponse).refresh_token with
          | some rt => some ⟨encrypt rt, none⟩
          | none => (⟨none, some ⟨encrypt ['R'], none⟩⟩ : Store).refresh)
    ∧ ((⟨200, [], some ['A'], none, some 10⟩ :
          UpstreamResponse).refresh_token = none →
        (save_token ⟨200, [], some ['A'], none, some 10⟩
            ⟨none, some ⟨encrypt ['R'], none⟩⟩ 0).getRefresh 0
          = Store.getRefresh ⟨none, some ⟨encrypt ['R'], none⟩⟩ 0) := by
  refine ⟨by decide, ?_⟩
  exact c6_refresh_persisted_iff_included ⟨200, [], some ['A'], none, some 10⟩
    ⟨none, some ⟨encrypt ['R'], none⟩⟩ 0 0 (by decide)

/-- C7: contrary to the encrypted-at-rest invariant, the seeding script
src/redis_set_up.py writes the plaintext tokens to the store: the stored
access value is the plaintext itself, is not a ciphertext (decryption of it
fails, as it would in get_valid_token), while an encrypted write decrypts
back to its plaintext. -/
theorem c7_seed_script_writes_plaintext :
    (redis_set_up_save ['A', '1'] ['R', '1'] ⟨none, none⟩).access
        = some ⟨['A', '1'], none⟩
    ∧ (redis_set_up_save ['A', '1'] ['R', '1'] ⟨none, none⟩).refresh
        = some ⟨['R', '1'], none⟩
    ∧ decrypt ['A', '1'] = none
    ∧ decrypt ['R', '1'] = none
    ∧ decrypt (encrypt ['A', '1']) = some ['A', '1'] :=
  ⟨rfl, rfl, by decide, by decide, decrypt_encrypt ['A', '1']⟩

/-- C8: a token pair written through save_token (encrypt then store) and read
back immediately (fetch then decrypt) yields the identical plaintexts, on
both the access slot and the refresh slot. -/
theorem c8_round_trip (st : Store) (now ei : Nat) (a rt : Str)
    (ha : a ≠ []) (hrt : rt ≠ []) (hei : 0 < ei) :
    ((save_token ⟨200, [], some a, some rt, some ei⟩ st now).getAccess
        now).bind decrypt = some a
    ∧ ((save_token ⟨200, [], some a, some rt, some ei⟩ st now).getRefresh
        now).bind decrypt = some rt := by
  have hacc := save_token_access ⟨200, [], some a, some rt, some ei⟩ st now
  have href := save_token_refresh ⟨200, [], some a, some rt, some ei⟩ st now
  simp only [truthy] at hacc href
  rw [if_neg ha] at hacc
  rw [if_neg hrt] at href
  constructor
  · unfold Store.getAccess
    rw [hacc]
    have hlt : now < now + ei := Nat.lt_add_of_pos_right hei
    simp [hlt, decrypt_encrypt]
  · unfold Store.getRefresh
    rw [href]
    simp [decrypt_encrypt]

/-- Witness for C8 at concrete tokens and a one-second TTL. -/
theorem c8_witness :
    (['A'] : Str) ≠ [] ∧ (['R'] : Str) ≠ [] ∧ (0 : Nat) < 1
    ∧ (((save_token ⟨200, [], some ['A'], some ['R'], some 1⟩
          ⟨none, none⟩ 0).getAccess 0).bind decrypt = some ['A']
        ∧ ((save_token ⟨200, [], some ['A'], some ['R'], some 1⟩
          ⟨none, none⟩ 0).getRefresh 0).bind decrypt = some ['R']) :=
  ⟨by decide, by decide, by decide,
   c8_round_trip ⟨none, none⟩ 0 1 ['A'] ['R'] (by decide) (by decide)
     (by decide)⟩

/-- C9: a successful response's access token is stored with the store-enforced
deadline now + expires_in (default 3600 when the response omits expires_in):
reads strictly before the deadline return the stored ciphertext and reads at
or after it return absent. -/
theorem c9_access_ttl (resp : UpstreamResponse) (st : Store)
    (now t1 t2 : Nat) (a : Str)
    (hat : resp.access_token = some a) (ha : a ≠ []) :
    (save_token resp st now).access
        = some ⟨encrypt a, some (now + resp.expires_in.getD 3600)⟩
    ∧ (t1 < now + resp.expires_in.getD 3600 →
        (save_token resp st now).getAccess t1 = some (encrypt a))
    ∧ (now + resp.expires_in.getD 3600 ≤ t2 →
        (save_token resp st now).getAccess t2 = none) := by
  have hacc : (save_token resp st now).access
      = some ⟨encrypt a, some (now + resp.expires_in.getD 3600)⟩ := by
    rw [save_token_access, hat]
    simp [truthy, ha]
  refine ⟨hacc, ?_, ?_⟩
  · intro hlt
    unfold Store.getAccess
    rw [hacc]
    simp [hlt]
  · intro hle
    unfold Store.getAccess
    rw [hacc]
    simp [Nat.not_lt.mpr hle]

/-- Witness for C9: a response omitting expires_in gets the default 3600, the
token is readable at instant 0 and absent at instant 3600. -/
theorem c9_witness :
    ((⟨200, [], some ['A'], none, none⟩ : UpstreamResponse).access_token
        = some ['A'])
    ∧ (['A'] : Str) ≠ []
    ∧ ((save_token ⟨200, [], some ['A'], none, none⟩ ⟨none, none⟩ 0).access
        = some ⟨encrypt ['A'],
            some (0 + (Option.getD (α := Nat) none 3600))⟩
        ∧ (0 < 0 + (Option.getD (α := Nat) none 3600) →
            (save_token ⟨200, [], some ['A'], none, none⟩
              ⟨none, none⟩ 0).getAccess 0 = some (encrypt ['A']))
        ∧ (0 + (Option.getD (α := Nat) none 3600) ≤ 3600 →
            (save_token ⟨200, [], some ['A'], none, none⟩
              ⟨none, none⟩ 0).getAccess 3600 = none)) :=
  ⟨rfl, by decide,
   c9_access_ttl ⟨200, [], some ['A'], none, none⟩ ⟨none, none⟩ 0 0 3600 ['A']
     rfl (by decide)⟩

/-- C10: when every value in the access slot is the encryption of a non-empty
string and every 200 upstream response carries a non-empty access_token, a
successful get_valid_token never returns an empty token; consequently
get_spotify_client never takes its return-None branch after a successful
token fetch. -/
theorem c10_successful_token_nonempty_client_built
    (oracle : Str → UpstreamResponse) (st : Store) (now : Nat) (tk : Str)
    (hstore : ∀ e, st.access = some e → ∃ s, s ≠ [] ∧ e.value = encrypt s)
    (hup : ∀ rt, (oracle rt).status = 200 →
        ∃ s, s ≠ [] ∧ (oracle rt).access_token = some s)
    (hok : (get_valid_token oracle st now).result = Except.ok tk) :
    tk ≠ [] ∧ (get_spotify_client oracle st now).1 = Except.ok (some tk) := by
  have htk : tk ≠ [] := by
    unfold get_valid_token refresh_access_token refreshLockBody at hok
    split at hok
    · next c heq =>
      obtain ⟨e, hae, hev⟩ := getAccess_eq_some heq
      obtain ⟨s, hs, hval⟩ := hstore e hae
      have hc : c = encrypt s := by rw [← hev, hval]
      rw [hc, decrypt_encrypt] at hok
      simp only at hok
      cases hok
      exact hs
    · next heq =>
      split at hok
      · simp at hok
      · next c heq2 =>
        split at hok
        · simp at hok
        · next rt hrt =>
          simp only at hok
          split at hok
          · simp at hok
          · next hstatus =>
            have h200 : (oracle rt).status = 200 := by
              by_contra hne
              exact hstatus hne
            obtain ⟨s, hs, hat⟩ := hup rt h200
            rw [hat] at hok
            simp only at hok
            cases hok
            exact hs
  refine ⟨htk, ?_⟩
  simp only [get_spotify_client]
  rw [hok]
  simp [htk]

/-- Witness for C10 at a concrete store holding an encrypted token. -/
theorem c10_witness :
    (['A'] : Str) ≠ []
    ∧ (get_spotify_client (fun _ => ⟨200, [], some ['T'], none, none⟩)
        ⟨some ⟨encrypt ['A'], none⟩, none⟩ 0).1 = Except.ok (some ['A']) :=
  c10_successful_token_nonempty_client_built
    (fun _ => ⟨200, [], some ['T'], none, none⟩)
    ⟨some ⟨encrypt ['A'], none⟩, none⟩ 0 ['A']
    (fun e he => ⟨['A'], by decide, by cases he; rfl⟩)
    (fun rt _ => ⟨['T'], by decide, rfl⟩)
    rfl

/-!
### Concurrency model of the double-checked refresh

Each of n request-handling callers runs get_valid_token against the shared
store.  Every Redis operation of src/main.py (GET, the r.lock acquisition and
release, the upstream POST, the SETs of save_token) is one atomic step, and
the steps of different callers interleave arbitrarily.  The clock is fixed at
one instant: a single expiry window. -/

/-- The program counter of one caller running get_valid_token: the point
between two atomic operations, carrying the values read so far. -/
inductive Phase
  | start
  | needRefresh
  | waitLock (rt : Str)
  | locked (rt : Str)
  | calling (rt : Str)
  | saving (resp : UpstreamResponse)
  | finished (res : Except Err Str)

/-- A caller holds the spotify_refresh_lock exactly in the phases between its
acquisition and its release. -/
def Phase.inLock : Phase → Prop
  | Phase.locked _ => True
  | Phase.calling _ => True
  | Phase.saving _ => True
  | _ => False

/-- Global configuration: the shared store, the holder of the refresh lock,
the number of POSTs issued to the upstream token endpoint so far, and every
caller's phase. -/
structure Config (n : Nat) where
  store : Store
  lockHolder : Option (Fin n)
  upstream : Nat
  threads : Fin n → Phase

/-- Returning a fetched ciphertext to the caller: the decrypted token, or the
error fernet.decrypt raises on a non-ciphertext value. -/
def readResult (c : Str) : Except Err Str :=
  match decrypt c with
  | some a => Except.ok a
  | none => Except.error Err.decryptError

/-- The value a refreshing caller returns after save_token: the response's
access_token field, a KeyError when the response lacks it. -/
def saveReturn (resp : UpstreamResponse) : Except Err Str :=
  match resp.access_token with
  | some a => Except.ok a
  | none => Except.error Err.keyError

/-- One atomic step of one caller, at the fixed instant now, against the
upstream token endpoint modelled by the oracle.  The constructors follow
src/main.py get_valid_token and refresh_access_token line by line. -/
inductive Step (oracle : Str → UpstreamResponse) (now : Nat) {n : Nat} :
    Config n → Config n → Prop
  | fastHit (c : Config n) (i : Fin n) (ct : Str)
      (hp : c.threads i = Phase.start)
      (hg : c.store.getAccess now = some ct) :
      Step oracle now c
        { c with threads := Function.update c.threads i (Phase.finished (readResult ct)) }
  | fastMiss (c : Config n) (i : Fin n)
      (hp : c.threads i = Phase.start)
      (hg : c.store.getAccess now = none) :
      Step oracle now c
        { c with threads := Function.update c.threads i Phase.needRefresh }
  | readRefreshAbsent (c : Config n) (i : Fin n)
      (hp : c.threads i = Phase.needRefresh)
      (hg : c.store.getRefresh now = none) :
      Step oracle now c
        { c with threads := Function.update c.threads i (Phase.finished (Except.error Err.noCredentials)) }
  | readRefreshBad (c : Config n) (i : Fin n) (ct : Str)
      (hp : c.threads i = Phase.needRefresh)
      (hg : c.store.getRefresh now = some ct)
      (hd : decrypt ct = none) :
      Step oracle now c
        { c with threads := Function.update c.threads i (Phase.finished (Except.error Err.decryptError)) }
  | readRefreshOk (c : Config n) (i : Fin n) (ct rt : Str)
      (hp : c.threads i = Phase.needRefresh)
      (hg : c.store.getRefresh now = some ct)
      (hd : decrypt ct = some rt) :
      Step oracle now c
        { c with threads := Function.update c.threads i (Phase.waitLock rt) }
  | acquire (c : Config n) (i : Fin n) (rt : Str)
      (hp : c.threads i = Phase.waitLock rt)
      (hl : c.lockHolder = none) :
      Step oracle now c
        { c with lockHolder := some i,
                 threads := Function.update c.threads i (Phase.locked rt) }
  | recheckHit (c : Config n) (i : Fin n) (rt ct : Str)
      (hp : c.threads i = Phase.locked rt)
      (hg : c.store.getAccess now = some ct) :
      Step oracle now c
        { c with lockHolder := none,
                 threads := Function.update c.threads i (Phase.finished (readResult ct)) }
  | recheckMiss (c : Config n) (i : Fin n) (rt : Str)
      (hp : c.threads i = Phase.locked rt)
      (hg : c.store.getAccess now = none) :
      Step oracle now c
        { c with threads := Function.update c.threads i (Phase.calling rt) }
  | callFail (c : Config n) (i : Fin n) (rt : Str)
      (hp : c.threads i = Phase.calling rt)
      (hs : (oracle rt).status ≠ 200) :
      Step oracle now c
        { c with lockHolder := none,
                 upstream := c.upstream + 1,
                 threads := Function.update c.threads i (Phase.finished (Except.error (Err.upstreamRefreshFailed (oracle rt).text))) }
  | callOk (c : Config n) (i : Fin n) (rt : Str)
      (hp : c.threads i = Phase.calling rt)
      (hs : (oracle rt).status = 200) :
      Step oracle now c
        { c with upstream := c.upstream + 1,
                 threads := Function.update c.threads i (Phase.saving (oracle rt)) }
  | saveAndRelease (c : Config n) (i : Fin n) (resp : UpstreamResponse)
      (hp : c.threads i = Phase.saving resp) :
      Step oracle now c
        { c with store := save_token resp c.store now,
                 lockHolder := none,
                 threads := Function.update c.threads i (Phase.finished (saveReturn resp)) }

/-- The inductive invariant of the refresh race, for a stored refresh token
r1 whose refresh yields the access token a. -/
structure Inv (oracle : Str → UpstreamResponse) (now : Nat) (r1 a : Str)
    {n : Nat} (c : Config n) : Prop where
  lockIff : ∀ i, (c.threads i).inLock ↔ c.lockHolder = some i
  accessVal : c.store.getAccess now = none
      ∨ c.store.getAccess now = some (encrypt a)
  refreshCipher : ∃ s, c.store.getRefresh now = some (encrypt s)
  refreshOrSaved : c.store.getRefresh now = some (encrypt r1)
      ∨ c.store.getAccess now = some (encrypt a)
  waitOk : ∀ i rt, c.threads i = Phase.waitLock rt ∨ c.threads i = Phase.locked rt →
      rt = r1 ∨ c.store.getAccess now = some (encrypt a)
  callingOk : ∀ i rt, c.threads i = Phase.calling rt →
      rt = r1 ∧ c.store.getAccess now = none
  savingOk : ∀ i resp, c.threads i = Phase.saving resp → resp = oracle r1
  upstreamLe : c.upstream ≤ 1
  upstreamSrc : 1 ≤ c.upstream → c.store.getAccess now = some (encrypt a)
      ∨ ∃ i resp, c.threads i = Phase.saving resp
  finishedOk : ∀ i res, c.threads i = Phase.finished res → res = Except.ok a

/-- After save_token on a response carrying a non-empty access token with a
positive TTL, the access read at the write instant returns the ciphertext. -/
theorem save_token_getAccess_now (resp : UpstreamResponse) (st : Store)
    (now : Nat) (a : Str) (hat : resp.access_token = some a) (ha : a ≠ [])
    (httl : 0 < resp.expires_in.getD 3600) :
    (save_token resp st now).getAccess now = some (encrypt a) := by
  have hacc : (save_token resp st now).access
      = some ⟨encrypt a, some (now + resp.expires_in.getD 3600)⟩ := by
    rw [save_token_access, hat]
    simp [truthy, ha]
  unfold Store.getAccess
  rw [hacc]
  simp [Nat.lt_add_of_pos_right httl]

/-- save_token leaves the refresh read unchanged or replaces it by a
ciphertext. -/
theorem save_token_getRefresh_cases (resp : UpstreamResponse) (st : Store)
    (now : Nat) :
    (save_token resp st now).getRefresh now = st.getRefresh now
    ∨ ∃ s, (save_token resp st now).getRefresh now = some (encrypt s) := by
  have hr := save_token_refresh resp st now
  cases htr : truthy resp.refresh_token with
  | none =>
    simp only [htr] at hr
    exact Or.inl (getRefresh_congr hr now)
  | some rt =>
    simp only [htr] at hr
    refine Or.inr ⟨rt, ?_⟩
    simp [Store.getRefresh, hr]

/-- Invariant preservation for a step that only moves one caller to a phase
outside the lock, leaving the store, the lock and the call counter as they
were. -/
theorem inv_update_thread
    {oracle : Str → UpstreamResponse} {now : Nat} {r1 a : Str} {n : Nat}
    {c : Config n} (hinv : Inv oracle now r1 a c) (i : Fin n) (p : Phase)
    (hold : ¬ (c.threads i).inLock) (hnew : ¬ p.inLock)
    (hwait : ∀ rt, p = Phase.waitLock rt →
        rt = r1 ∨ c.store.getAccess now = some (encrypt a))
    (hfin : ∀ res, p = Phase.finished res → res = Except.ok a) :
    Inv oracle now r1 a { c with threads := Function.update c.threads i p } := by
  obtain ⟨hL, hA, hC, hR, hW, hCa, hS, hU, hUs, hF⟩ := hinv
  refine ⟨?_, hA, hC, hR, ?_, ?_, ?_, hU, ?_, ?_⟩
  · intro j
    dsimp only
    by_cases hj : j = i
    · subst hj
      rw [Function.update_same]
      exact ⟨fun h => absurd h hnew, fun h => absurd ((hL j).mpr h) hold⟩
    · rw [Function.update_noteq hj]
      exact hL j
  · intro j rt hjrt
    dsimp only at hjrt
    by_cases hj : j = i
    · subst hj
      rw [Function.update_same] at hjrt
      rcases hjrt with h | h
      · exact hwait rt h
      · rw [h] at hnew
        exact absurd trivial hnew
    · rw [Function.update_noteq hj] at hjrt
      exact hW j rt hjrt
  · intro j rt hjrt
    dsimp only at hjrt
    by_cases hj : j = i
    · subst hj
      rw [Function.update_same] at hjrt
      rw [hjrt] at hnew
      exact absurd trivial hnew
    · rw [Function.update_noteq hj] at hjrt
      exact hCa j rt hjrt
  · intro j resp hjr
    dsimp only at hjr
    by_cases hj : j = i
    · subst hj
      rw [Function.update_same] at hjr
      rw [hjr] at hnew
      exact absurd trivial hnew
    · rw [Function.update_noteq hj] at hjr
      exact hS j resp hjr
  · intro h1
    rcases hUs h1 with h | ⟨j, resp, hjr⟩
    · exact Or.inl h
    · have hji : j ≠ i := by
        intro he
        rw [he] at hjr
        rw [hjr] at hold
        exact hold trivial
      refine Or.inr ⟨j, resp, ?_⟩
      dsimp only
      rw [Function.update_noteq hji]
      exact hjr
  · intro j res hjr
    dsimp only at hjr
    by_cases hj : j = i
    · subst hj
      rw [Function.update_same] at hjr
      exact hfin res hjr
    · rw [Function.update_noteq hj] at hjr
      exact hF j res hjr

theorem Phase.start_not_inLock : ¬ Phase.start.inLock := fun h => h

theorem Phase.finished_not_inLock (res : Except Err Str) :
    ¬ (Phase.finished res).inLock := fun h => h

/-- The invariant holds initially: access token absent, an encrypted refresh
token stored, lock free, no upstream call yet, every caller at the start. -/
theorem inv_init {oracle : Str → UpstreamResponse} {now : Nat} {r1 a : Str}
    {n : Nat} {c0 : Config n}
    (h0a : c0.store.getAccess now = none)
    (h0r : c0.store.getRefresh now = some (encrypt r1))
    (h0l : c0.lockHolder = none)
    (h0u : c0.upstream = 0)
    (h0t : ∀ i, c0.threads i = Phase.start) :
    Inv oracle now r1 a c0 := by
  refine ⟨?_, Or.inl h0a, ⟨r1, h0r⟩, Or.inl h0r, ?_, ?_, ?_, ?_, ?_, ?_⟩
  · intro i
    rw [h0t i, h0l]
    exact ⟨fun h => absurd h Phase.start_not_inLock, fun h => nomatch h⟩
  · intro i rt h
    rw [h0t i] at h
    rcases h with h | h <;> cases h
  · intro i rt h
    rw [h0t i] at h
    cases h
  · intro i resp h
    rw [h0t i] at h
    cases h
  · rw [h0u]
    exact Nat.zero_le 1
  · intro h1
    rw [h0u] at h1
    exact absurd h1 (by decide)
  · intro i res h
    rw [h0t i] at h
    cases h

/-- One step of any caller preserves the refresh-race invariant, given that
refreshing r1 upstream succeeds with the non-empty access token a and a
positive TTL. -/
theorem inv_step {oracle : Str → UpstreamResponse} {now : Nat} {r1 a : Str}
    {n : Nat} {c c2 : Config n}
    (hst : (oracle r1).status = 200)
    (hat : (oracle r1).access_token = some a)
    (ha : a ≠ [])
    (httl : 0 < (oracle r1).expires_in.getD 3600)
    (hstep : Step oracle now c c2) (hinv : Inv oracle now r1 a c) :
    Inv oracle now r1 a c2 := by
  cases hstep with
  | fastHit i ct hp hg =>
    have hct : ct = encrypt a := by
      rcases hinv.accessVal with h | h
      · rw [h] at hg; cases hg
      · rw [h] at hg; exact (Option.some.inj hg).symm
    refine inv_update_thread hinv i _ ?_ ?_ ?_ ?_
    · rw [hp]; exact fun h => h
    · exact fun h => h
    · exact fun rt h => nomatch h
    · intro res hres
      cases hres
      rw [hct]
      simp [readResult, decrypt_encrypt]
  | fastMiss i hp hg =>
    refine inv_update_thread hinv i _ ?_ ?_ ?_ ?_
    · rw [hp]; exact fun h => h
    · exact fun h => h
    · exact fun rt h => nomatch h
    · exact fun res h => nomatch h
  | readRefreshAbsent i hp hg =>
    obtain ⟨s, hs⟩ := hinv.refreshCipher
    rw [hg] at hs
    cases hs
  | readRefreshBad i ct hp hg hd =>
    obtain ⟨s, hs⟩ := hinv.refreshCipher
    rw [hg] at hs
    have hct : ct = encrypt s := Option.some.inj hs
    rw [hct, decrypt_encrypt] at hd
    cases hd
  | readRefreshOk i ct rt hp hg hd =>
    have hside : rt = r1 ∨ c.store.getAccess now = some (encrypt a) := by
      rcases hinv.refreshOrSaved with h | h
      · left
        rw [h] at hg
        have hct : ct = encrypt r1 := (Option.some.inj hg).symm
        rw [hct, decrypt_encrypt] at hd
        exact (Option.some.inj hd).symm
      · exact Or.inr h
    refine inv_update_thread hinv i _ ?_ ?_ ?_ ?_
    · rw [hp]; exact fun h => h
    · exact fun h => h
    · intro rt2 h
      cases h
      exact hside
    · exact fun res h => nomatch h
  | acquire i rt hp hl =>
    obtain ⟨hL, hA, hC, hR, hW, hCa, hS, hU, hUs, hF⟩ := hinv
    refine ⟨?_, hA, hC, hR, ?_, ?_, ?_, hU, ?_, ?_⟩
    · intro j
      dsimp only
      by_cases hj : j = i
      · subst hj
        rw [Function.update_same]
        exact ⟨fun _ => rfl, fun _ => trivial⟩
      · rw [Function.update_noteq hj]
        constructor
        · intro h
          have h2 := (hL j).mp h
          rw [hl] at h2
          cases h2
        · intro h
          exact absurd (Option.some.inj h).symm hj
    · intro j rt2 hjrt
      dsimp only at hjrt
      by_cases hj : j = i
      · subst hj
        rw [Function.update_same] at hjrt
        rcases hjrt with h | h
        · cases h
        · cases h
          exact hW j rt (Or.inl hp)
      · rw [Function.update_noteq hj] at hjrt
        exact hW j rt2 hjrt
    · intro j rt2 hjc
      dsimp only at hjc
      by_cases hj : j = i
      · subst hj
        rw [Function.update_same] at hjc
        cases hjc
      · rw [Function.update_noteq hj] at hjc
        exact hCa j rt2 hjc
    · intro j resp hjr
      dsimp only at hjr
      by_cases hj : j = i
      · subst hj
        rw [Function.update_same] at hjr
        cases hjr
      · rw [Function.update_noteq hj] at hjr
        exact hS j resp hjr
    · intro h1
      rcases hUs h1 with h | ⟨j, resp, hjr⟩
      · exact Or.inl h
      · have h2 := (hL j).mp (by rw [hjr]; trivial)
        rw [hl] at h2
        cases h2
    · intro j res hjr
      dsimp only at hjr
      by_cases hj : j = i
      · subst hj
        rw [Function.update_same] at hjr
        cases hjr
      · rw [Function.update_noteq hj] at hjr
        exact hF j res hjr
  | recheckHit i rt ct hp hg =>
    obtain ⟨hL, hA, hC, hR, hW, hCa, hS, hU, hUs, hF⟩ := hinv
    have hlock : c.lockHolder = some i := (hL i).mp (by rw [hp]; trivial)
    have hct : ct = encrypt a := by
      rcases hA with h | h
      · rw [h] at hg; cases hg
      · rw [h] at hg; exact (Option.some.inj hg).symm
    refine ⟨?_, hA, hC, hR, ?_, ?_, ?_, hU, ?_, ?_⟩
    · intro j
      dsimp only
      by_cases hj : j = i
      · subst hj
        rw [Function.update_same]
        exact ⟨fun h => absurd h (Phase.finished_not_inLock _), fun h => nomatch h⟩
      · rw [Function.update_noteq hj]
        constructor
        · intro h
          have h2 := (hL j).mp h
          rw [hlock] at h2
          exact absurd (Option.some.inj h2).symm hj
        · intro h
          cases h
    · intro j rt2 hjrt
      dsimp only at hjrt
      by_cases hj : j = i
      · subst hj
        rw [Function.update_same] at hjrt
        rcases hjrt with h | h <;> cases h
      · rw [Function.update_noteq hj] at hjrt
        exact hW j rt2 hjrt
    · intro j rt2 hjc
      dsimp only at hjc
      by_cases hj : j = i
      · subst hj
        rw [Function.update_same] at hjc
        cases hjc
      · rw [Function.update_noteq hj] at hjc
        exact hCa j rt2 hjc
    · intro j resp hjr
      dsimp only at hjr
      by_cases hj : j = i
      · subst hj
        rw [Function.update_same] at hjr
        cases hjr
      · rw [Function.update_noteq hj] at hjr
        exact hS j resp hjr
    · intro h1
      rcases hUs h1 with h | ⟨j, resp, hjr⟩
      · exact Or.inl h
      · have h2 := (hL j).mp (by rw [hjr]; trivial)
        rw [hlock] at h2
        have hji : i = j := Option.some.inj h2
        rw [← hji, hp] at hjr
        cases hjr
    · intro j res hjr
      dsimp only at hjr
      by_cases hj : j = i
      · subst hj
        rw [Function.update_same] at hjr
        cases hjr
        rw [hct]
        simp [readResult, decrypt_encrypt]
      · rw [Function.update_noteq hj] at hjr
        exact hF j res hjr
  | recheckMiss i rt hp hg =>
    obtain ⟨hL, hA, hC, hR, hW, hCa, hS, hU, hUs, hF⟩ := hinv
    have hlock : c.lockHolder = some i := (hL i).mp (by rw [hp]; trivial)
    have hrt : rt = r1 := by
      rcases hW i rt (Or.inr hp) with h | h
      · exact h
      · rw [hg] at h; cases h
    have hup0 : c.upstream = 0 := by
      by_contra hne
      have h1 : 1 ≤ c.upstream := Nat.one_le_iff_ne_zero.mpr hne
      rcases hUs h1 with h | ⟨j, resp, hjr⟩
      · rw [hg] at h; cases h
      · have h2 := (hL j).mp (by rw [hjr]; trivial)
        rw [hlock] at h2
        have hji : i = j := Option.some.inj h2
        rw [← hji, hp] at hjr
        cases hjr
    refine ⟨?_, hA, hC, hR, ?_, ?_, ?_, hU, ?_, ?_⟩
    · intro j
      dsimp only
      by_cases hj : j = i
      · subst hj
        rw [Function.update_same]
        exact ⟨fun _ => hlock, fun _ => trivial⟩
      · rw [Function.update_noteq hj]
        exact hL j
    · intro j rt2 hjrt
      dsimp only at hjrt
      by_cases hj : j = i
      · subst hj
        rw [Function.update_same] at hjrt
        rcases hjrt with h | h <;> cases h
      · rw [Function.update_noteq hj] at hjrt
        exact hW j rt2 hjrt
    · intro j rt2 hjc
      dsimp only at hjc
      by_cases hj : j = i
      · subst hj
        rw [Function.update_same] at hjc
        cases hjc
        exact ⟨hrt, hg⟩
      · rw [Function.update_noteq hj] at hjc
        exact hCa j rt2 hjc
    · intro j resp hjr
      dsimp only at hjr
      by_cases hj : j = i
      · subst hj
        rw [Function.update_same] at hjr
        cases hjr
      · rw [Function.update_noteq hj] at hjr
        exact hS j resp hjr
    · intro h1
      dsimp only at h1
      rw [hup0] at h1
      exact absurd h1 (by decide)
    · intro j res hjr
      dsimp only at hjr
      by_cases hj : j = i
      · subst hj
        rw [Function.update_same] at hjr
        cases hjr
      · rw [Function.update_noteq hj] at hjr
        exact hF j res hjr
  | callFail i rt hp hs =>
    have hrt := (hinv.callingOk i rt hp).1
    rw [hrt] at hs
    exact absurd hst hs
  | callOk i rt hp hs =>
    obtain ⟨hL, hA, hC, hR, hW, hCa, hS, hU, hUs, hF⟩ := hinv
    obtain ⟨hrt, hgan⟩ := hCa i rt hp
    have hlock : c.lockHolder = some i := (hL i).mp (by rw [hp]; trivial)
    have hup0 : c.upstream = 0 := by
      by_contra hne
      have h1 : 1 ≤ c.upstream := Nat.one_le_iff_ne_zero.mpr hne
      rcases hUs h1 with h | ⟨j, resp, hjr⟩
      · rw [hgan] at h; cases h
      · have h2 := (hL j).mp (by rw [hjr]; trivial)
        rw [hlock] at h2
        have hji : i = j := Option.some.inj h2
        rw [← hji, hp] at hjr
        cases hjr
    refine ⟨?_, hA, hC, hR, ?_, ?_, ?_, ?_, ?_, ?_⟩
    · intro j
      dsimp only
      by_cases hj : j = i
      · subst hj
        rw [Function.update_same]
        exact ⟨fun _ => hlock, fun _ => trivial⟩
      · rw [Function.update_noteq hj]
        exact hL j
    · intro j rt2 hjrt
      dsimp only at hjrt
      by_cases hj : j = i
      · subst hj
        rw [Function.update_same] at hjrt
        rcases hjrt with h | h <;> cases h
      · rw [Function.update_noteq hj] at hjrt
        exact hW j rt2 hjrt
    · intro j rt2 hjc
      dsimp only at hjc
      by_cases hj : j = i
      · subst hj
        rw [Function.update_same] at hjc
        cases hjc
      · rw [Function.update_noteq hj] at hjc
        exact hCa j rt2 hjc
    · intro j resp hjr
      dsimp only at hjr
      by_cases hj : j = i
      · subst hj
        rw [Function.update_same] at hjr
        cases hjr
        rw [hrt]
      · rw [Function.update_noteq hj] at hjr
        exact hS j resp hjr
    · dsimp only
      rw [hup0]
    · intro h1
      refine Or.inr ⟨i, oracle rt, ?_⟩
      dsimp only
      rw [Function.update_same]
    · intro j res hjr
      dsimp only at hjr
      by_cases hj : j = i
      · subst hj
        rw [Function.update_same] at hjr
        cases hjr
      · rw [Function.update_noteq hj] at hjr
        exact hF j res hjr
  | saveAndRelease i resp hp =>
    obtain ⟨hL, hA, hC, hR, hW, hCa, hS, hU, hUs, hF⟩ := hinv
    have hresp : resp = oracle r1 := hS i resp hp
    have hlock : c.lockHolder = some i := (hL i).mp (by rw [hp]; trivial)
    have hga2 : (save_token resp c.store now).getAccess now = some (encrypt a) := by
      rw [hresp]
      exact save_token_getAccess_now _ _ _ a hat ha httl
    have hgr2 : ∃ s, (save_token resp c.store now).getRefresh now
        = some (encrypt s) := by
      rcases save_token_getRefresh_cases resp c.store now with h | h
      · obtain ⟨s, hs⟩ := hC
        exact ⟨s, by rw [h]; exact hs⟩
      · exact h
    refine ⟨?_, Or.inr hga2, hgr2, Or.inr hga2, ?_, ?_, ?_, hU, ?_, ?_⟩
    · intro j
      dsimp only
      by_cases hj : j = i
      · subst hj
        rw [Function.update_same]
        exact ⟨fun h => absurd h (Phase.finished_not_inLock _), fun h => nomatch h⟩
      · rw [Function.update_noteq hj]
        constructor
        · intro h
          have h2 := (hL j).mp h
          rw [hlock] at h2
          exact absurd (Option.some.inj h2).symm hj
        · intro h
          cases h
    · intro j rt2 hjrt
      exact Or.inr hga2
    · intro j rt2 hjc
      dsimp only at hjc
      by_cases hj : j = i
      · subst hj
        rw [Function.update_same] at hjc
        cases hjc
      · rw [Function.update_noteq hj] at hjc
        have h2 := (hL j).mp (by rw [hjc]; trivial)
        rw [hlock] at h2
        exact absurd (Option.some.inj h2).symm hj
    · intro j resp2 hjr
      dsimp only at hjr
      by_cases hj : j = i
      · subst hj
        rw [Function.update_same] at hjr
        cases hjr
      · rw [Function.update_noteq hj] at hjr
        have h2 := (hL j).mp (by rw [hjr]; trivial)
        rw [hlock] at h2
        exact absurd (Option.some.inj h2).symm hj
    · intro h1
      exact Or.inl hga2
    · intro j res hjr
      dsimp only at hjr
      by_cases hj : j = i
      · subst hj
        rw [Function.update_same] at hjr
        cases hjr
        rw [hresp]
        simp [saveReturn, hat]
      · rw [Function.update_noteq hj] at hjr
        exact hF j res hjr

/-- The invariant holds in every configuration reachable from one satisfying
it. -/
theorem inv_reachable {oracle : Str → UpstreamResponse} {now : Nat}
    {r1 a : Str} {n : Nat} {c0 c : Config n}
    (hst : (oracle r1).status = 200)
    (hat : (oracle r1).access_token = some a)
    (ha : a ≠ [])
    (httl : 0 < (oracle r1).expires_in.getD 3600)
    (h0 : Inv oracle now r1 a c0)
    (hreach : Relation.ReflTransGen (Step oracle now) c0 c) :
    Inv oracle now r1 a c := by
  induction hreach with
  | refl => exact h0
  | tail hsteps hstep ih => exact inv_step hst hat ha httl hstep ih

/-- C1: starting from a state where the access token is absent, a valid
encrypted refresh token is stored, the lock is free and all n callers are
about to run get_valid_token, every interleaving of the callers reaches only
configurations in which the upstream refresh endpoint has been called at most
once system-wide, and every caller that has finished returned the same
refreshed access-token value. -/
theorem c1_at_most_one_upstream_all_agree
    (oracle : Str → UpstreamResponse) (now : Nat) (r1 a : Str) {n : Nat}
    (c0 c : Config n) (i : Fin n) (res : Except Err Str)
    (hst : (oracle r1).status = 200)
    (hat : (oracle r1).access_token = some a)
    (ha : a ≠ [])
    (httl : 0 < (oracle r1).expires_in.getD 3600)
    (h0a : c0.store.getAccess now = none)
    (h0r : c0.store.getRefresh now = some (encrypt r1))
    (h0l : c0.lockHolder = none)
    (h0u : c0.upstream = 0)
    (h0t : ∀ j, c0.threads j = Phase.start)
    (hreach : Relation.ReflTransGen (Step oracle now) c0 c)
    (hfin : c.threads i = Phase.finished res) :
    c.upstream ≤ 1 ∧ res = Except.ok a := by
  have hinv : Inv oracle now r1 a c :=
    inv_reachable hst hat ha httl (inv_init h0a h0r h0l h0u h0t) hreach
  exact ⟨hinv.upstreamLe, hinv.finishedOk i res hfin⟩

/-- Demonstration oracle for the C1 witness: refreshing any token yields the
access token "A" with no rotated refresh token. -/
def demoOracle : Str → UpstreamResponse :=
  fun _ => ⟨200, [], some ['A'], none, none⟩

/-- Initial demonstration configuration: one caller, no access token, the
encrypted refresh token "R" stored, lock free. -/
def demo0 : Config 1 :=
  ⟨⟨none, some ⟨encrypt ['R'], none⟩⟩, none, 0, fun _ => Phase.start⟩

def demo1 : Config 1 :=
  { demo0 with threads := Function.update demo0.threads 0 Phase.needRefresh }

def demo2 : Config 1 :=
  { demo1 with threads := Function.update demo1.threads 0 (Phase.waitLock ['R']) }

def demo3 : Config 1 :=
  { demo2 with lockHolder := some 0,
               threads := Function.update demo2.threads 0 (Phase.locked ['R']) }

def demo4 : Config 1 :=
  { demo3 with threads := Function.update demo3.threads 0 (Phase.calling ['R']) }

def demo5 : Config 1 :=
  { demo4 with upstream := demo4.upstream + 1,
               threads := Function.update demo4.threads 0
                 (Phase.saving (demoOracle ['R'])) }

def demo6 : Config 1 :=
  { demo5 with store := save_token (demoOracle ['R']) demo5.store 0,
               lockHolder := none,
               threads := Function.update demo5.threads 0
                 (Phase.finished (saveReturn (demoOracle ['R']))) }

/-- The full one-caller refresh trace is a run of the step relation. -/
theorem demo_reach : Relation.ReflTransGen (Step demoOracle 0) demo0 demo6 := by
  refine Relation.ReflTransGen.tail ?_
    (Step.saveAndRelease demo5 0 (demoOracle ['R']) rfl)
  refine Relation.ReflTransGen.tail ?_ (Step.callOk demo4 0 ['R'] rfl rfl)
  refine Relation.ReflTransGen.tail ?_ (Step.recheckMiss demo3 0 ['R'] rfl rfl)
  refine Relation.ReflTransGen.tail ?_ (Step.acquire demo2 0 ['R'] rfl rfl)
  refine Relation.ReflTransGen.tail ?_
    (Step.readRefreshOk demo1 0 (encrypt ['R']) ['R'] rfl rfl (by decide))
  exact Relation.ReflTransGen.single (Step.fastMiss demo0 0 rfl rfl)

/-- Witness for C1: a complete one-caller trace from the initial state to a
finished caller. -/
theorem c1_witness :
    demo6.upstream ≤ 1 ∧ saveReturn (demoOracle ['R']) = Except.ok ['A'] :=
  c1_at_most_one_upstream_all_agree demoOracle 0 ['R'] ['A'] demo0 demo6
    0 (saveReturn (demoOracle ['R'])) rfl rfl (by decide) (by decide)
    rfl rfl rfl rfl (fun _ => rfl) demo_reach rfl

end SBB








